import Mathlib

/-!
# Verification of the Yahtzee html-experiment engine

Shallow embedding of the game-logic core of `src/html-experiment/index.js`:
the scoring calculator (`calculatePossibleScores`, `sumIfMatch`, `sumAll`),
the scoreboard (`applyScoreToCategory`, `calculateFinalScore`), and the
turn/round state machine (`beginPlayerTurn`, `rollDice`, `animateCupShake`,
the keydown reroll path, `nextPlayerOrRound`).

Modelling conventions:
* JS numbers appearing here are small non-negative integers; they are
  embedded as `Nat`.
* The five-element JS arrays `diceValues` / `diceKept` are embedded as
  functions `Fin 5 → Nat` / `Fin 5 → Bool`; the JS `for` loop over die
  indices becomes a fold over `List.finRange 5` with functional update.
* `Math.floor(Math.random() * 6)` is an oracle value in `Fin 6`; randomness
  is passed in explicitly as a function `rng : Fin 5 → Fin 6` giving the
  oracle draw used for each die index.
* The JS scoreboard object (13 nullable fields) is embedded as a function
  `Category → Option Nat`; mutation of one key becomes functional update.
  The score dictionary returned by `calculatePossibleScores` (13 non-null
  fields) is a structure `ScoreDict`.
* `Object.values(counts)` iterates the counts of the distinct dice values in
  first-insertion order.  Every use in the source is order-insensitive (an
  `any`-style test, the length, or the input of a sort), so the counts
  multiset is embedded in `List.dedup` order.
* `Array.prototype.sort()` without a comparator sorts by string code units;
  the sorted values here are dice counts in 1..5 (single digits), for which
  string order coincides with numeric order, so the numeric insertion sort
  `List.insertionSort` is a faithful embedding.
* The cup-shake animation is modelled atomically: a completed
  `animateCupShake` run decrements `rollsLeft`, rerolls the non-kept dice,
  and restores `isAnimating` to `false` (its value at entry); requests
  arriving while a run is in flight are the `isAnimating = true` case, which
  both the keydown listener and the guard at the top of `animateCupShake`
  reject unchanged.
-/

/-- The 13 fixed scoring categories (`catMap` keys / scoreboard fields). -/
inductive Category where
  | ones | twos | threes | fours | fives | sixes
  | three_of_a_kind | four_of_a_kind | full_house
  | small_straight | large_straight | yahtzee | chance
deriving DecidableEq

/-- `MAX_TURNS` from the source. -/
def MAX_TURNS : Nat := 13

/-- `MAX_ROLLS_PER_TURN` from the source. -/
def MAX_ROLLS_PER_TURN : Nat := 2

/-- The `gameMode` global: one of the four mode strings. -/
inductive GameMode where
  | promptPlayers | rolling | scoreSelection | gameOver
deriving DecidableEq

/-- `sumIfMatch(vals, num)`: `vals.filter(v => v === num).reduce((a,b)=>a+b,0)`. -/
def sumIfMatch (vals : List Nat) (num : Nat) : Nat :=
  (vals.filter (fun v => v == num)).foldl (· + ·) 0

/-- `sumAll(vals)`: `vals.reduce((a,b)=>a+b,0)`. -/
def sumAll (vals : List Nat) : Nat :=
  vals.foldl (· + ·) 0

/-- The distinct dice values, as in `[...new Set(vals)]` (the JS code also
sorts them, but only membership and length are ever used). -/
def uniqueVals (vals : List Nat) : List Nat :=
  vals.dedup

/-- `Object.values(counts)` for the `counts` occurrence map built at the top
of `calculatePossibleScores`: the multiplicity of each distinct value. -/
def countsValues (vals : List Nat) : List Nat :=
  (uniqueVals vals).map (fun v => vals.count v)

/-- `Object.values(counts).sort()` (see header note on JS `sort()`). -/
def sortCounts (l : List Nat) : List Nat :=
  l.insertionSort (· ≤ ·)

/-- The score dictionary returned by `calculatePossibleScores`: one
non-null number per category. -/
structure ScoreDict where
  ones : Nat
  twos : Nat
  threes : Nat
  fours : Nat
  fives : Nat
  sixes : Nat
  three_of_a_kind : Nat
  four_of_a_kind : Nat
  full_house : Nat
  small_straight : Nat
  large_straight : Nat
  yahtzee : Nat
  chance : Nat

/-- Dictionary lookup `possible[cat]`. -/
def ScoreDict.get (d : ScoreDict) : Category → Nat
  | .ones => d.ones
  | .twos => d.twos
  | .threes => d.threes
  | .fours => d.fours
  | .fives => d.fives
  | .sixes => d.sixes
  | .three_of_a_kind => d.three_of_a_kind
  | .four_of_a_kind => d.four_of_a_kind
  | .full_house => d.full_house
  | .small_straight => d.small_straight
  | .large_straight => d.large_straight
  | .yahtzee => d.yahtzee
  | .chance => d.chance

/-- The `smallStraights` table. -/
def smallStraights : List (List Nat) := [[1,2,3,4], [2,3,4,5], [3,4,5,6]]

/-- The `largeStraights` table. -/
def largeStraights : List (List Nat) := [[1,2,3,4,5], [2,3,4,5,6]]

/-- `calculatePossibleScores(vals)`, field for field from the source.
`Object.keys(counts).length` is the number of distinct values;
`countVals[0] === 2 && countVals[1] === 3` compares against `undefined`
(hence is false) when the sorted list is shorter, embedded via `getD`
with a default that can never equal 2 resp. 3. -/
def calculatePossibleScores (vals : List Nat) : ScoreDict :=
  let counts := countsValues vals
  let countVals := sortCounts counts
  let uniq := uniqueVals vals
  { ones   := sumIfMatch vals 1
    twos   := sumIfMatch vals 2
    threes := sumIfMatch vals 3
    fours  := sumIfMatch vals 4
    fives  := sumIfMatch vals 5
    sixes  := sumIfMatch vals 6
    three_of_a_kind := if counts.any (fun c => 3 ≤ c) then sumAll vals else 0
    four_of_a_kind  := if counts.any (fun c => 4 ≤ c) then sumAll vals else 0
    full_house :=
      if uniq.length == 2 && countVals.getD 0 0 == 2 && countVals.getD 1 0 == 3
      then 25 else 0
    small_straight :=
      if smallStraights.any (fun seq => seq.all (fun x => uniq.contains x))
      then 30 else 0
    large_straight :=
      if largeStraights.any (fun seq =>
           seq.length == uniq.length && seq.all (fun x => uniq.contains x))
      then 40 else 0
    yahtzee := if counts.any (fun c => c == 5) then 50 else 0
    chance := sumAll vals }

/-- The five dice values determined by oracle draws `a b c d e : Fin 6`,
each die being `Math.floor(Math.random()*6) + 1`. -/
def diceOf (a b c d e : Fin 6) : List Nat :=
  [a.1 + 1, b.1 + 1, c.1 + 1, d.1 + 1, e.1 + 1]

/-! ## Scoreboard -/

/-- A per-player scoreboard: the JS object with 13 nullable fields. -/
def Scoreboard : Type := Category → Option Nat

/-- `applyScoreToCategory(cat, vals, playerIdx, forceZero)`: the commit
operation.  The JS assigns `scoreboards[playerIdx][cat]` unconditionally;
mutation of one key is embedded as functional update of that player's
scoreboard. -/
def applyScoreToCategory (cat : Category) (vals : List Nat) (sb : Scoreboard)
    (forceZero : Bool) : Scoreboard :=
  if forceZero then
    fun c => if c = cat then some 0 else sb c
  else
    fun c => if c = cat then some ((calculatePossibleScores vals).get cat) else sb c

/-- From `openScoreSelectionOverlay`: `used = sb[cat] !== null`, and the
Take-Score / Zero-This buttons (the only callers of `selectScoreCategory`)
are rendered only for categories that are not used. -/
def categoryOffered (sb : Scoreboard) (cat : Category) : Prop :=
  sb cat = none

/-- `upperKeys` from `calculateFinalScore`. -/
def upperKeys : List Category :=
  [.ones, .twos, .threes, .fours, .fives, .sixes]

/-- `lowerKeys` from `calculateFinalScore`. -/
def lowerKeys : List Category :=
  [.three_of_a_kind, .four_of_a_kind, .full_house,
   .small_straight, .large_straight, .yahtzee, .chance]

/-- The `if (sb[k] !== null) score += sb[k]` accumulation loop of
`calculateFinalScore`. -/
def sumSetEntries (sb : Scoreboard) (keys : List Category) : Nat :=
  keys.foldl (fun acc k => match sb k with | some v => acc + v | none => acc) 0

/-- `calculateFinalScore(sb)`: returns `[upperScore, bonus, lowerScore, total]`. -/
def calculateFinalScore (sb : Scoreboard) : Nat × Nat × Nat × Nat :=
  let upperScore := sumSetEntries sb upperKeys
  let lowerScore := sumSetEntries sb lowerKeys
  let bonus := if 63 ≤ upperScore then 35 else 0
  (upperScore, bonus, lowerScore, upperScore + bonus + lowerScore)

/-! ## Turn state and dice rolling -/

/-- The per-turn mutable globals. -/
structure TurnSt where
  diceValues : Fin 5 → Nat
  diceKept : Fin 5 → Bool
  rollsLeft : Nat
  turnEnded : Bool
  isAnimating : Bool
  gameMode : GameMode

/-- `rollDice()`: `for i in 0..4, if (!diceKept[i]) diceValues[i] = random`. -/
def rollDiceVals (kept : Fin 5 → Bool) (vals : Fin 5 → Nat)
    (rng : Fin 5 → Fin 6) : Fin 5 → Nat :=
  (List.finRange 5).foldl
    (fun vs i => if kept i then vs else Function.update vs i ((rng i).1 + 1)) vals

/-- `beginPlayerTurn()`: reset dice to zeroes, clear the kept flags, reset
`rollsLeft` and `turnEnded`, do the automatic initial roll (with the just
cleared kept flags), and enter `rolling`. -/
def beginPlayerTurn (rng : Fin 5 → Fin 6) (s : TurnSt) : TurnSt :=
  let kept0 : Fin 5 → Bool := fun _ => false
  { diceValues := rollDiceVals kept0 (fun _ => 0) rng
    diceKept := kept0
    rollsLeft := MAX_ROLLS_PER_TURN
    turnEnded := false
    isAnimating := s.isAnimating
    gameMode := GameMode.rolling }

/-- A completed `animateCupShake` run, modelled atomically (header note):
rejected unchanged if a run is already in flight, otherwise `rollsLeft--`
and `rollDice()` at the value-resolution instant. -/
def animateCupShake (rng : Fin 5 → Fin 6) (s : TurnSt) : TurnSt :=
  if s.isAnimating then s
  else { s with rollsLeft := s.rollsLeft - 1
                diceValues := rollDiceVals s.diceKept s.diceValues rng }

/-- The `keydown` listener's reroll path for key `r`: only in `rolling` mode
with no animation in progress, and only with `rollsLeft > 0`, is
`animateCupShake` started. -/
def keydownRoll (rng : Fin 5 → Fin 6) (s : TurnSt) : TurnSt :=
  if s.gameMode = GameMode.rolling ∧ s.isAnimating = false then
    if 0 < s.rollsLeft then animateCupShake rng s else s
  else s

/-! ## Round / player advancement -/

/-- The round-level part of the game state. -/
structure RoundSt where
  currentPlayer : Nat
  currentRound : Nat
  gameMode : GameMode

/-- `nextPlayerOrRound()`: `currentPlayer++`; on wrapping past the last
player, reset to 0 and `currentRound++`; if the round passes `MAX_TURNS`
enter `gameOver`, else `beginPlayerTurn()` leaves the mode at `rolling`. -/
def nextPlayerOrRound (numPlayers : Nat) (s : RoundSt) : RoundSt :=
  let p := s.currentPlayer + 1
  let wrap := numPlayers ≤ p
  let p2 := if wrap then 0 else p
  let r2 := if wrap then s.currentRound + 1 else s.currentRound
  if MAX_TURNS < r2 then
    { currentPlayer := p2, currentRound := r2, gameMode := GameMode.gameOver }
  else
    { currentPlayer := p2, currentRound := r2, gameMode := GameMode.rolling }

/-- The round state right after `setNumberOfPlayers`: `currentRound = 1`,
`currentPlayer = 0`, and `beginPlayerTurn()` has entered `rolling`. -/
def gameStart : RoundSt :=
  { currentPlayer := 0, currentRound := 1, gameMode := GameMode.rolling }

/-! ## Spec-side predicates for the scoring claims -/

/-- Spec predicate: the dice have exactly two distinct values whose
multiplicities are 2 and 3. -/
def FullHouseDice (vals : List Nat) : Prop :=
  ∃ x ∈ vals, ∃ y ∈ vals, x ≠ y ∧ vals.count x = 3 ∧ vals.count y = 2 ∧
    ∀ z ∈ vals, z = x ∨ z = y

/-- Spec predicate: some value has multiplicity 5. -/
def YahtzeeDice (vals : List Nat) : Prop :=
  ∃ v ∈ vals, vals.count v = 5

/-- Spec predicate: the set of distinct values contains 1,2,3,4 or 2,3,4,5
or 3,4,5,6 as a subset. -/
def SmallStraightDice (vals : List Nat) : Prop :=
  [1,2,3,4] ⊆ vals ∨ [2,3,4,5] ⊆ vals ∨ [3,4,5,6] ⊆ vals

/-- Spec predicate: the set of distinct dice values is exactly 1,2,3,4,5 or
exactly 2,3,4,5,6 (set equality, i.e. the same membership). -/
def LargeStraightDice (vals : List Nat) : Prop :=
  (∀ x : Nat, x ∈ vals ↔ x ∈ ([1,2,3,4,5] : List Nat)) ∨
  (∀ x : Nat, x ∈ vals ↔ x ∈ ([2,3,4,5,6] : List Nat))

/-! ## Boolean mirrors of the spec predicates, for exhaustive checking -/

/-- Boolean mirror of `FullHouseDice`. -/
def fullHouseDiceB (vals : List Nat) : Bool :=
  vals.any fun x => vals.any fun y =>
    x != y && vals.count x == 3 && vals.count y == 2 &&
      vals.all fun z => z == x || z == y

/-- Boolean mirror of `YahtzeeDice`. -/
def yahtzeeDiceB (vals : List Nat) : Bool :=
  vals.any fun v => vals.count v == 5

/-- Boolean mirror of list-as-set inclusion. -/
def subsetB (l vals : List Nat) : Bool :=
  l.all fun x => vals.contains x

/-- Boolean mirror of list-as-set equality. -/
def setEqB (vals l : List Nat) : Bool :=
  subsetB vals l && subsetB l vals

/-- Boolean mirror of `SmallStraightDice`. -/
def smallStraightDiceB (vals : List Nat) : Bool :=
  subsetB [1,2,3,4] vals || subsetB [2,3,4,5] vals || subsetB [3,4,5,6] vals

/-- Boolean mirror of `LargeStraightDice`. -/
def largeStraightDiceB (vals : List Nat) : Bool :=
  setEqB vals [1,2,3,4,5] || setEqB vals [2,3,4,5,6]

/-- Exhaustive check for the full-house / yahtzee characterisation, over all
non-decreasing dice tuples (the general case follows by permutation
invariance). -/
def checkFullHouseYahtzee : Bool :=
  (List.range 6).all fun a => (List.range 6).all fun b =>
  (List.range 6).all fun c => (List.range 6).all fun d =>
  (List.range 6).all fun e =>
    !(Nat.ble a b && Nat.ble b c && Nat.ble c d && Nat.ble d e) ||
      (let vals := [a+1, b+1, c+1, d+1, e+1]
       let fh := (calculatePossibleScores vals).full_house
       let ya := (calculatePossibleScores vals).yahtzee
       ((fh == 25) == fullHouseDiceB vals) && (fh == 25 || fh == 0) &&
       ((ya == 50) == yahtzeeDiceB vals) && (ya == 50 || ya == 0))

/-- Exhaustive check for the straight characterisations, over all
non-decreasing dice tuples. -/
def checkStraights : Bool :=
  (List.range 6).all fun a => (List.range 6).all fun b =>
  (List.range 6).all fun c => (List.range 6).all fun d =>
  (List.range 6).all fun e =>
    !(Nat.ble a b && Nat.ble b c && Nat.ble c d && Nat.ble d e) ||
      (let vals := [a+1, b+1, c+1, d+1, e+1]
       let ls := (calculatePossibleScores vals).large_straight
       let ss := (calculatePossibleScores vals).small_straight
       ((ls == 40) == largeStraightDiceB vals) && (ls == 40 || ls == 0) &&
       ((ss == 30) == smallStraightDiceB vals) && (ss == 30 || ss == 0))

/-! ## Concrete fixtures used by witnesses and counterexamples -/

/-- A scoreboard in which only `ones` is set (to 3). -/
def sbOnesSet : Scoreboard :=
  fun c => if c = Category.ones then some 3 else none

/-- A fixed random oracle. -/
def rngConst : Fin 5 → Fin 6 := fun _ => 2

/-- A turn state in mid-turn with one roll left. -/
def turnMid : TurnSt :=
  { diceValues := fun _ => 3
    diceKept := fun _ => false
    rollsLeft := 1
    turnEnded := false
    isAnimating := false
    gameMode := GameMode.rolling }

/-- A turn state with no rolls left. -/
def turnNoRolls : TurnSt :=
  { turnMid with rollsLeft := 0 }

/-- A turn state with an animation in flight. -/
def turnAnimating : TurnSt :=
  { turnMid with isAnimating := true, rollsLeft := 2 }

/-- A turn state whose second die is kept. -/
def turnKeepOne : TurnSt :=
  { turnMid with diceKept := fun i => i == 1, rollsLeft := 2 }

/-- The spec's upper subtotal: the set entries of the six upper categories
summed, unset categories contributing 0. -/
def upperSubtotal (sb : Scoreboard) : Nat :=
  (upperKeys.map (fun k => (sb k).getD 0)).sum

/-- The spec's lower subtotal: the set entries of the seven lower categories
summed, unset categories contributing 0. -/
def lowerSubtotal (sb : Scoreboard) : Nat :=
  (lowerKeys.map (fun k => (sb k).getD 0)).sum

example : (calculatePossibleScores [1,1,1,1,1]).yahtzee = 50 := by decide
example : (calculatePossibleScores [1,1,1,1,1]).full_house = 0 := by decide
example : (calculatePossibleScores [2,2,3,3,3]).full_house = 25 := by decide
example : (calculatePossibleScores [1,2,3,4,5]).large_straight = 40 := by decide
example : (calculatePossibleScores [1,2,3,4,5]).small_straight = 30 := by decide
example : (calculatePossibleScores [1,2,3,4,5]).chance = 15 := by decide
example : (calculatePossibleScores [2,2,3,3,3]).three_of_a_kind = 13 := by decide

/-! ## Exhaustive evaluations -/

theorem checkFullHouseYahtzee_eq : checkFullHouseYahtzee = true := by decide!

theorem checkStraights_eq : checkStraights = true := by decide!

/-! ## Permutation invariance of the scoring calculator -/

theorem sumAll_perm {l₁ l₂ : List Nat} (p : l₁.Perm l₂) : sumAll l₁ = sumAll l₂ :=
  p.foldl_eq' (fun x _ y _ z => by omega) 0

theorem sumIfMatch_perm {l₁ l₂ : List Nat} (p : l₁.Perm l₂) (n : Nat) :
    sumIfMatch l₁ n = sumIfMatch l₂ n :=
  (p.filter (fun v => v == n)).foldl_eq' (fun x _ y _ z => by omega) 0

theorem any_perm {l₁ l₂ : List Nat} (p : l₁.Perm l₂) (f : Nat → Bool) :
    l₁.any f = l₂.any f := by
  rw [Bool.eq_iff_iff]
  simp only [List.any_eq_true]
  constructor
  · rintro ⟨x, hx, hfx⟩
    exact ⟨x, p.mem_iff.mp hx, hfx⟩
  · rintro ⟨x, hx, hfx⟩
    exact ⟨x, p.mem_iff.mpr hx, hfx⟩

theorem contains_perm {l₁ l₂ : List Nat} (p : l₁.Perm l₂) (x : Nat) :
    l₁.contains x = l₂.contains x := by
  rw [Bool.eq_iff_iff]
  simp only [List.contains_iff_exists_mem_beq]
  constructor
  · rintro ⟨y, hy, hxy⟩
    exact ⟨y, p.mem_iff.mp hy, hxy⟩
  · rintro ⟨y, hy, hxy⟩
    exact ⟨y, p.mem_iff.mpr hy, hxy⟩

theorem countsValues_perm {l₁ l₂ : List Nat} (p : l₁.Perm l₂) :
    (countsValues l₁).Perm (countsValues l₂) := by
  unfold countsValues uniqueVals
  have h1 : l₁.dedup.map (fun v => l₁.count v) = l₁.dedup.map (fun v => l₂.count v) :=
    List.map_congr_left (fun a _ => p.count_eq a)
  rw [h1]
  exact p.dedup.map _

instance : IsAntisymm Nat (· ≤ ·) :=
  ⟨fun _ _ h1 h2 => Nat.le_antisymm h1 h2⟩

theorem sortCounts_perm_eq {l₁ l₂ : List Nat} (p : l₁.Perm l₂) :
    sortCounts l₁ = sortCounts l₂ :=
  List.eq_of_perm_of_sorted
    ((List.perm_insertionSort (· ≤ ·) l₁).trans (p.trans (List.perm_insertionSort (· ≤ ·) l₂).symm))
    (List.sorted_insertionSort (· ≤ ·) l₁) (List.sorted_insertionSort (· ≤ ·) l₂)

theorem calculatePossibleScores_perm {l₁ l₂ : List Nat} (p : l₁.Perm l₂) :
    calculatePossibleScores l₁ = calculatePossibleScores l₂ := by
  have hd : l₁.dedup.Perm l₂.dedup := p.dedup
  have hcv : (countsValues l₁).Perm (countsValues l₂) := countsValues_perm p
  have hlen : l₁.dedup.length = l₂.dedup.length := hd.length_eq
  have hcont : ∀ x, l₁.dedup.contains x = l₂.dedup.contains x := contains_perm hd
  simp only [calculatePossibleScores, ScoreDict.mk.injEq, uniqueVals]
  refine ⟨?_, ?_, ?_, ?_, ?_, ?_, ?_, ?_, ?_, ?_, ?_, ?_, ?_⟩
  · exact sumIfMatch_perm p 1
  · exact sumIfMatch_perm p 2
  · exact sumIfMatch_perm p 3
  · exact sumIfMatch_perm p 4
  · exact sumIfMatch_perm p 5
  · exact sumIfMatch_perm p 6
  · rw [any_perm hcv, sumAll_perm p]
  · rw [any_perm hcv, sumAll_perm p]
  · simp only [sortCounts_perm_eq hcv, hlen]
  · simp only [hcont]
  · simp only [hcont, hlen]
  · rw [any_perm hcv]
  · exact sumAll_perm p

theorem exists_sorted_perm_five (l : List Nat) (h : l.length = 5) :
    ∃ w1 w2 w3 w4 w5 : Nat, w1 ≤ w2 ∧ w2 ≤ w3 ∧ w3 ≤ w4 ∧ w4 ≤ w5 ∧
      ([w1, w2, w3, w4, w5] : List Nat).Perm l := by
  obtain ⟨s, hp, hs, hl⟩ :
      ∃ s : List Nat, s.Perm l ∧ List.Sorted (· ≤ ·) s ∧ s.length = 5 :=
    ⟨l.insertionSort (· ≤ ·), List.perm_insertionSort _ l,
     List.sorted_insertionSort _ l, (List.perm_insertionSort _ l).length_eq.trans h⟩
  rcases s with _ | ⟨w1, _ | ⟨w2, _ | ⟨w3, _ | ⟨w4, _ | ⟨w5, _ | ⟨w6, t⟩⟩⟩⟩⟩⟩ <;>
    simp only [List.length_cons, List.length_nil] at hl <;> try omega
  simp only [List.sorted_cons, List.mem_cons, List.mem_singleton, List.not_mem_nil] at hs
  exact ⟨w1, w2, w3, w4, w5,
    hs.1 w2 (by tauto), hs.2.1 w3 (by tauto), hs.2.2.1 w4 (by tauto),
    hs.2.2.2.1 w5 (by tauto), hp⟩

/-! ## Permutation invariance of the spec predicates -/

theorem FullHouseDice_perm {l₁ l₂ : List Nat} (p : l₁.Perm l₂) :
    FullHouseDice l₁ ↔ FullHouseDice l₂ := by
  have aux : ∀ m₁ m₂ : List Nat, m₁.Perm m₂ → FullHouseDice m₁ → FullHouseDice m₂ := by
    rintro m₁ m₂ q ⟨x, hx, y, hy, hxy, hcx, hcy, hall⟩
    exact ⟨x, q.mem_iff.mp hx, y, q.mem_iff.mp hy, hxy, q.count_eq x ▸ hcx,
           q.count_eq y ▸ hcy, fun z hz => hall z (q.mem_iff.mpr hz)⟩
  exact ⟨aux _ _ p, aux _ _ p.symm⟩

theorem YahtzeeDice_perm {l₁ l₂ : List Nat} (p : l₁.Perm l₂) :
    YahtzeeDice l₁ ↔ YahtzeeDice l₂ := by
  have aux : ∀ m₁ m₂ : List Nat, m₁.Perm m₂ → YahtzeeDice m₁ → YahtzeeDice m₂ := by
    rintro m₁ m₂ q ⟨v, hv, hcv⟩
    exact ⟨v, q.mem_iff.mp hv, q.count_eq v ▸ hcv⟩
  exact ⟨aux _ _ p, aux _ _ p.symm⟩

theorem SmallStraightDice_perm {l₁ l₂ : List Nat} (p : l₁.Perm l₂) :
    SmallStraightDice l₁ ↔ SmallStraightDice l₂ := by
  have aux : ∀ m₁ m₂ : List Nat, m₁.Perm m₂ → SmallStraightDice m₁ → SmallStraightDice m₂ := by
    rintro m₁ m₂ q (h | h | h)
    · exact Or.inl (h.trans q.subset)
    · exact Or.inr (Or.inl (h.trans q.subset))
    · exact Or.inr (Or.inr (h.trans q.subset))
  exact ⟨aux _ _ p, aux _ _ p.symm⟩

theorem LargeStraightDice_perm {l₁ l₂ : List Nat} (p : l₁.Perm l₂) :
    LargeStraightDice l₁ ↔ LargeStraightDice l₂ := by
  have aux : ∀ m₁ m₂ : List Nat, m₁.Perm m₂ → LargeStraightDice m₁ → LargeStraightDice m₂ := by
    rintro m₁ m₂ q (h | h)
    · exact Or.inl fun x => (q.mem_iff.symm).trans (h x)
    · exact Or.inr fun x => (q.mem_iff.symm).trans (h x)
  exact ⟨aux _ _ p, aux _ _ p.symm⟩

/-! ## Boolean mirrors agree with the spec predicates -/

theorem fullHouseDiceB_iff (vals : List Nat) :
    fullHouseDiceB vals = true ↔ FullHouseDice vals := by
  simp [fullHouseDiceB, FullHouseDice, List.any_eq_true, List.all_eq_true,
        Bool.and_eq_true, Bool.or_eq_true, bne_iff_ne, beq_iff_eq, and_assoc]

theorem yahtzeeDiceB_iff (vals : List Nat) :
    yahtzeeDiceB vals = true ↔ YahtzeeDice vals := by
  simp [yahtzeeDiceB, YahtzeeDice, List.any_eq_true, beq_iff_eq]

theorem subsetB_iff (l vals : List Nat) :
    subsetB l vals = true ↔ l ⊆ vals := by
  simp [subsetB, List.all_eq_true, List.subset_def, List.contains_iff_exists_mem_beq,
        beq_iff_eq]

theorem smallStraightDiceB_iff (vals : List Nat) :
    smallStraightDiceB vals = true ↔ SmallStraightDice vals := by
  simp [smallStraightDiceB, SmallStraightDice, Bool.or_eq_true, subsetB_iff, or_assoc]

theorem largeStraightDiceB_iff (vals : List Nat) :
    largeStraightDiceB vals = true ↔ LargeStraightDice vals := by
  simp only [largeStraightDiceB, setEqB, Bool.or_eq_true, Bool.and_eq_true, subsetB_iff,
             LargeStraightDice]
  constructor
  · rintro (⟨h1, h2⟩ | ⟨h1, h2⟩)
    · exact Or.inl fun x => ⟨fun hx => h1 hx, fun hx => h2 hx⟩
    · exact Or.inr fun x => ⟨fun hx => h1 hx, fun hx => h2 hx⟩
  · rintro (h | h)
    · exact Or.inl ⟨fun x hx => (h x).mp hx, fun x hx => (h x).mpr hx⟩
    · exact Or.inr ⟨fun x hx => (h x).mp hx, fun x hx => (h x).mpr hx⟩

/-! ## Characterisations on sorted dice, extracted from the exhaustive checks -/

theorem fullHouse_yahtzee_sorted (v1 v2 v3 v4 v5 : Nat)
    (h1 : 1 ≤ v1) (h6 : v5 ≤ 6)
    (s12 : v1 ≤ v2) (s23 : v2 ≤ v3) (s34 : v3 ≤ v4) (s45 : v4 ≤ v5) :
    ((calculatePossibleScores [v1,v2,v3,v4,v5]).full_house = 25 ↔
       FullHouseDice [v1,v2,v3,v4,v5]) ∧
    ((calculatePossibleScores [v1,v2,v3,v4,v5]).full_house = 25 ∨
       (calculatePossibleScores [v1,v2,v3,v4,v5]).full_house = 0) ∧
    ((calculatePossibleScores [v1,v2,v3,v4,v5]).yahtzee = 50 ↔
       YahtzeeDice [v1,v2,v3,v4,v5]) ∧
    ((calculatePossibleScores [v1,v2,v3,v4,v5]).yahtzee = 50 ∨
       (calculatePossibleScores [v1,v2,v3,v4,v5]).yahtzee = 0) := by
  have h := checkFullHouseYahtzee_eq
  unfold checkFullHouseYahtzee at h
  simp only [List.all_eq_true, List.mem_range] at h
  have hb := h (v1-1) (by omega) (v2-1) (by omega) (v3-1) (by omega)
               (v4-1) (by omega) (v5-1) (by omega)
  simp only [show v1 - 1 + 1 = v1 from by omega, show v2 - 1 + 1 = v2 from by omega,
             show v3 - 1 + 1 = v3 from by omega, show v4 - 1 + 1 = v4 from by omega,
             show v5 - 1 + 1 = v5 from by omega] at hb
  have hgt : (Nat.ble (v1-1) (v2-1) && Nat.ble (v2-1) (v3-1) &&
              Nat.ble (v3-1) (v4-1) && Nat.ble (v4-1) (v5-1)) = true := by
    simp only [Bool.and_eq_true, Nat.ble_eq]
    omega
  rw [hgt] at hb
  simp only [Bool.not_true, Bool.false_or, Bool.and_eq_true] at hb
  obtain ⟨⟨⟨hA, hB⟩, hC⟩, hD⟩ := hb
  rw [beq_iff_eq] at hA hC
  refine ⟨?_, ?_, ?_, ?_⟩
  · rw [← fullHouseDiceB_iff, ← hA]
    exact beq_iff_eq.symm
  · simpa only [Bool.or_eq_true, beq_iff_eq] using hB
  · rw [← yahtzeeDiceB_iff, ← hC]
    exact beq_iff_eq.symm
  · simpa only [Bool.or_eq_true, beq_iff_eq] using hD

theorem straights_sorted (v1 v2 v3 v4 v5 : Nat)
    (h1 : 1 ≤ v1) (h6 : v5 ≤ 6)
    (s12 : v1 ≤ v2) (s23 : v2 ≤ v3) (s34 : v3 ≤ v4) (s45 : v4 ≤ v5) :
    ((calculatePossibleScores [v1,v2,v3,v4,v5]).large_straight = 40 ↔
       LargeStraightDice [v1,v2,v3,v4,v5]) ∧
    ((calculatePossibleScores [v1,v2,v3,v4,v5]).large_straight = 40 ∨
       (calculatePossibleScores [v1,v2,v3,v4,v5]).large_straight = 0) ∧
    ((calculatePossibleScores [v1,v2,v3,v4,v5]).small_straight = 30 ↔
       SmallStraightDice [v1,v2,v3,v4,v5]) ∧
    ((calculatePossibleScores [v1,v2,v3,v4,v5]).small_straight = 30 ∨
       (calculatePossibleScores [v1,v2,v3,v4,v5]).small_straight = 0) := by
  have h := checkStraights_eq
  unfold checkStraights at h
  simp only [List.all_eq_true, List.mem_range] at h
  have hb := h (v1-1) (by omega) (v2-1) (by omega) (v3-1) (by omega)
               (v4-1) (by omega) (v5-1) (by omega)
  simp only [show v1 - 1 + 1 = v1 from by omega, show v2 - 1 + 1 = v2 from by omega,
             show v3 - 1 + 1 = v3 from by omega, show v4 - 1 + 1 = v4 from by omega,
             show v5 - 1 + 1 = v5 from by omega] at hb
  have hgt : (Nat.ble (v1-1) (v2-1) && Nat.ble (v2-1) (v3-1) &&
              Nat.ble (v3-1) (v4-1) && Nat.ble (v4-1) (v5-1)) = true := by
    simp only [Bool.and_eq_true, Nat.ble_eq]
    omega
  rw [hgt] at hb
  simp only [Bool.not_true, Bool.false_or, Bool.and_eq_true] at hb
  obtain ⟨⟨⟨hA, hB⟩, hC⟩, hD⟩ := hb
  rw [beq_iff_eq] at hA hC
  refine ⟨?_, ?_, ?_, ?_⟩
  · rw [← largeStraightDiceB_iff, ← hA]
    exact beq_iff_eq.symm
  · simpa only [Bool.or_eq_true, beq_iff_eq] using hB
  · rw [← smallStraightDiceB_iff, ← hC]
    exact beq_iff_eq.symm
  · simpa only [Bool.or_eq_true, beq_iff_eq] using hD

/-- C3: for every 5-dice input in 1..6, `calculatePossibleScores` assigns
full_house = 25 iff the dice have exactly two distinct values whose
multiplicities are 2 and 3, and 0 otherwise; yahtzee = 50 iff some value has
multiplicity 5, and 0 otherwise; in particular five identical dice score 0
for full_house and 50 for yahtzee. -/
theorem fullHouse_yahtzee_characterization (a b c d e : Fin 6) :
    ((calculatePossibleScores (diceOf a b c d e)).full_house = 25 ↔
       FullHouseDice (diceOf a b c d e)) ∧
    ((calculatePossibleScores (diceOf a b c d e)).full_house = 25 ∨
       (calculatePossibleScores (diceOf a b c d e)).full_house = 0) ∧
    ((calculatePossibleScores (diceOf a b c d e)).yahtzee = 50 ↔
       YahtzeeDice (diceOf a b c d e)) ∧
    ((calculatePossibleScores (diceOf a b c d e)).yahtzee = 50 ∨
       (calculatePossibleScores (diceOf a b c d e)).yahtzee = 0) ∧
    ((calculatePossibleScores (diceOf a a a a a)).full_house = 0 ∧
       (calculatePossibleScores (diceOf a a a a a)).yahtzee = 50) := by
  obtain ⟨w1, w2, w3, w4, w5, s12, s23, s34, s45, hp⟩ :=
    exists_sorted_perm_five (diceOf a b c d e) (by simp [diceOf])
  have hmem : ∀ w ∈ ([w1,w2,w3,w4,w5] : List Nat), 1 ≤ w ∧ w ≤ 6 := by
    intro w hw
    have hw2 : w ∈ diceOf a b c d e := hp.mem_iff.mp hw
    simp only [diceOf, List.mem_cons, List.not_mem_nil, or_false] at hw2
    have ha := a.isLt
    have hbb := b.isLt
    have hc := c.isLt
    have hd := d.isLt
    have he := e.isLt
    rcases hw2 with rfl | rfl | rfl | rfl | rfl <;> omega
  have h1 : 1 ≤ w1 := (hmem w1 (by simp)).1
  have h6 : w5 ≤ 6 := (hmem w5 (by simp)).2
  have hchar := fullHouse_yahtzee_sorted w1 w2 w3 w4 w5 h1 h6 s12 s23 s34 s45
  have hdict : calculatePossibleScores (diceOf a b c d e) =
      calculatePossibleScores [w1,w2,w3,w4,w5] :=
    (calculatePossibleScores_perm hp).symm
  have hFH := FullHouseDice_perm hp
  have hY := YahtzeeDice_perm hp
  have hfive := fullHouse_yahtzee_sorted (a.1+1) (a.1+1) (a.1+1) (a.1+1) (a.1+1)
    (by omega) (by have := a.isLt; omega) le_rfl le_rfl le_rfl le_rfl
  refine ⟨?_, ?_, ?_, ?_, ?_, ?_⟩
  · rw [hdict]
    exact hchar.1.trans hFH
  · rw [hdict]
    exact hchar.2.1
  · rw [hdict]
    exact hchar.2.2.1.trans hY
  · rw [hdict]
    exact hchar.2.2.2
  · rcases hfive.2.1 with h25 | h0
    · exfalso
      obtain ⟨x, hx, y, hy, hxy, -⟩ := hfive.1.mp h25
      simp only [List.mem_cons, List.not_mem_nil, or_false, or_self] at hx hy
      exact hxy (hx.trans hy.symm)
    · exact h0
  · apply hfive.2.2.1.mpr
    refine ⟨a.1+1, by simp, ?_⟩
    simp [List.count_cons]

/-- C4: for every 5-dice input in 1..6, `calculatePossibleScores` assigns
large_straight = 40 iff the set of distinct values is exactly 1,2,3,4,5 or
exactly 2,3,4,5,6 (set equality, not subset), and 0 otherwise; and
small_straight = 30 iff the set of distinct values contains 1,2,3,4 or
2,3,4,5 or 3,4,5,6 as a subset, and 0 otherwise. -/
theorem straights_characterization (a b c d e : Fin 6) :
    ((calculatePossibleScores (diceOf a b c d e)).large_straight = 40 ↔
       LargeStraightDice (diceOf a b c d e)) ∧
    ((calculatePossibleScores (diceOf a b c d e)).large_straight = 40 ∨
       (calculatePossibleScores (diceOf a b c d e)).large_straight = 0) ∧
    ((calculatePossibleScores (diceOf a b c d e)).small_straight = 30 ↔
       SmallStraightDice (diceOf a b c d e)) ∧
    ((calculatePossibleScores (diceOf a b c d e)).small_straight = 30 ∨
       (calculatePossibleScores (diceOf a b c d e)).small_straight = 0) := by
  obtain ⟨w1, w2, w3, w4, w5, s12, s23, s34, s45, hp⟩ :=
    exists_sorted_perm_five (diceOf a b c d e) (by simp [diceOf])
  have hmem : ∀ w ∈ ([w1,w2,w3,w4,w5] : List Nat), 1 ≤ w ∧ w ≤ 6 := by
    intro w hw
    have hw2 : w ∈ diceOf a b c d e := hp.mem_iff.mp hw
    simp only [diceOf, List.mem_cons, List.not_mem_nil, or_false] at hw2
    have ha := a.isLt
    have hbb := b.isLt
    have hc := c.isLt
    have hd := d.isLt
    have he := e.isLt
    rcases hw2 with rfl | rfl | rfl | rfl | rfl <;> omega
  have h1 : 1 ≤ w1 := (hmem w1 (by simp)).1
  have h6 : w5 ≤ 6 := (hmem w5 (by simp)).2
  have hchar := straights_sorted w1 w2 w3 w4 w5 h1 h6 s12 s23 s34 s45
  have hdict : calculatePossibleScores (diceOf a b c d e) =
      calculatePossibleScores [w1,w2,w3,w4,w5] :=
    (calculatePossibleScores_perm hp).symm
  have hL := LargeStraightDice_perm hp
  have hS := SmallStraightDice_perm hp
  refine ⟨?_, ?_, ?_, ?_⟩
  · rw [hdict]
    exact hchar.1.trans hL
  · rw [hdict]
    exact hchar.2.1
  · rw [hdict]
    exact hchar.2.2.1.trans hS
  · rw [hdict]
    exact hchar.2.2.2

/-! ## Sum lemmas for the reduce-based accumulations -/

theorem foldl_add_shift (l : List Nat) : ∀ a : Nat,
    l.foldl (· + ·) a = a + l.foldl (· + ·) 0 := by
  induction l with
  | nil => intro a; simp
  | cons x t ih =>
    intro a
    simp only [List.foldl_cons]
    rw [ih (a + x), ih (0 + x)]
    omega

theorem sumAll_nil : sumAll [] = 0 := rfl

theorem sumAll_cons (v : Nat) (l : List Nat) : sumAll (v :: l) = v + sumAll l := by
  unfold sumAll
  simp only [List.foldl_cons]
  rw [foldl_add_shift]
  omega

theorem sumIfMatch_eq_sumAll_filter (l : List Nat) (n : Nat) :
    sumIfMatch l n = sumAll (l.filter (fun v => v == n)) := rfl

theorem sumIfMatch_cons (v n : Nat) (l : List Nat) :
    sumIfMatch (v :: l) n = (if v = n then v else 0) + sumIfMatch l n := by
  rw [sumIfMatch_eq_sumAll_filter, sumIfMatch_eq_sumAll_filter, List.filter_cons]
  by_cases hv : v = n
  · subst hv
    simp [sumAll_cons]
  · simp [hv]

theorem upper_sum_eq_chance (l : List Nat) (hl : ∀ v ∈ l, 1 ≤ v ∧ v ≤ 6) :
    sumIfMatch l 1 + sumIfMatch l 2 + sumIfMatch l 3 + sumIfMatch l 4 +
      sumIfMatch l 5 + sumIfMatch l 6 = sumAll l := by
  induction l with
  | nil => rfl
  | cons v t ih =>
    have hv := hl v (by simp)
    have ht : ∀ w ∈ t, 1 ≤ w ∧ w ≤ 6 := fun w hw => hl w (by simp [hw])
    rw [sumIfMatch_cons, sumIfMatch_cons, sumIfMatch_cons, sumIfMatch_cons,
        sumIfMatch_cons, sumIfMatch_cons, sumAll_cons, ← ih ht]
    obtain ⟨hv1, hv6⟩ := hv
    interval_cases v <;> simp <;> omega

/-- C10: for every 5-dice input in 1..6, the six upper-category scores sum to
the chance score. -/
theorem upper_categories_sum_to_chance (a b c d e : Fin 6) :
    (calculatePossibleScores (diceOf a b c d e)).ones +
    (calculatePossibleScores (diceOf a b c d e)).twos +
    (calculatePossibleScores (diceOf a b c d e)).threes +
    (calculatePossibleScores (diceOf a b c d e)).fours +
    (calculatePossibleScores (diceOf a b c d e)).fives +
    (calculatePossibleScores (diceOf a b c d e)).sixes =
    (calculatePossibleScores (diceOf a b c d e)).chance := by
  have hl : ∀ v ∈ diceOf a b c d e, 1 ≤ v ∧ v ≤ 6 := by
    intro v hv
    simp only [diceOf, List.mem_cons, List.not_mem_nil, or_false] at hv
    have ha := a.isLt
    have hbb := b.isLt
    have hc := c.isLt
    have hd := d.isLt
    have he := e.isLt
    rcases hv with rfl | rfl | rfl | rfl | rfl <;> omega
  show sumIfMatch _ 1 + sumIfMatch _ 2 + sumIfMatch _ 3 + sumIfMatch _ 4 +
    sumIfMatch _ 5 + sumIfMatch _ 6 = sumAll _
  exact upper_sum_eq_chance _ hl

/-- C7: for every 5-dice input in 1..6, `calculatePossibleScores` gives a
complete map with a non-negative integer for each of the 13 categories, and
the chance entry equals the sum of the five dice. -/
theorem possibleScores_total_nonneg_chance (a b c d e : Fin 6) :
    (∀ cat : Category, 0 ≤ (calculatePossibleScores (diceOf a b c d e)).get cat) ∧
    (calculatePossibleScores (diceOf a b c d e)).chance =
      (a.1 + 1) + (b.1 + 1) + (c.1 + 1) + (d.1 + 1) + (e.1 + 1) := by
  constructor
  · intro cat
    exact Nat.zero_le _
  · show sumAll (diceOf a b c d e) = _
    simp only [diceOf, sumAll_cons, sumAll_nil]
    omega

/-! ## The dice-roll loop -/

theorem rollDice_foldl_apply (kept : Fin 5 → Bool) (g : Fin 5 → Nat) :
    ∀ (l : List (Fin 5)) (vs : Fin 5 → Nat) (i : Fin 5),
      (l.foldl (fun vs j => if kept j then vs else Function.update vs j (g j)) vs) i
        = if i ∈ l ∧ kept i = false then g i else vs i := by
  intro l
  induction l with
  | nil =>
    intro vs i
    simp
  | cons j t ih =>
    intro vs i
    simp only [List.foldl_cons]
    by_cases hk : kept j = true
    · rw [if_pos hk, ih]
      by_cases hij : i = j
      · subst hij
        simp [hk]
      · simp [List.mem_cons, hij]
    · rw [if_neg hk, ih]
      by_cases hij : i = j
      · subst hij
        by_cases hit : i ∈ t
        · simp [hit, hk, Function.update_apply]
        · simp [hit, hk, Function.update_apply]
      · simp [List.mem_cons, hij, Function.update_apply]

theorem rollDiceVals_apply (kept : Fin 5 → Bool) (vals : Fin 5 → Nat)
    (rng : Fin 5 → Fin 6) (i : Fin 5) :
    rollDiceVals kept vals rng i = if kept i then vals i else (rng i).1 + 1 := by
  unfold rollDiceVals
  rw [rollDice_foldl_apply]
  have hi : i ∈ List.finRange 5 := List.mem_finRange i
  by_cases hk : kept i = true
  · simp [hi, hk]
  · simp only [Bool.not_eq_true] at hk
    simp [hi, hk]

/-- C9: for every dice state and kept-flag state, the reroll changes only the
values of non-kept dice, each replaced with a value in 1..6; the values of
kept dice are unchanged, and the kept flags themselves are untouched by the
reroll transition. -/
theorem reroll_frame (kept : Fin 5 → Bool) (vals : Fin 5 → Nat)
    (rng : Fin 5 → Fin 6) (s : TurnSt) :
    (∀ i, kept i = true → rollDiceVals kept vals rng i = vals i) ∧
    (∀ i, kept i = false →
       rollDiceVals kept vals rng i = (rng i).1 + 1 ∧
       1 ≤ rollDiceVals kept vals rng i ∧ rollDiceVals kept vals rng i ≤ 6) ∧
    (animateCupShake rng s).diceKept = s.diceKept ∧
    (∀ i, s.diceKept i = true →
       (animateCupShake rng s).diceValues i = s.diceValues i) := by
  refine ⟨?_, ?_, ?_, ?_⟩
  · intro i hi
    rw [rollDiceVals_apply]
    simp [hi]
  · intro i hi
    have hv : rollDiceVals kept vals rng i = (rng i).1 + 1 := by
      rw [rollDiceVals_apply]
      simp [hi]
    have hlt := (rng i).isLt
    refine ⟨hv, ?_, ?_⟩ <;> rw [hv] <;> omega
  · unfold animateCupShake
    by_cases ha : s.isAnimating = true
    · simp [ha]
    · simp only [Bool.not_eq_true] at ha
      simp [ha]
  · intro i hi
    unfold animateCupShake
    by_cases ha : s.isAnimating = true
    · simp [ha]
    · simp only [Bool.not_eq_true] at ha
      simp only [ha, Bool.false_eq_true, if_false]
      rw [rollDiceVals_apply]
      simp [hi]

/-- Witness for `reroll_frame` at a concrete state with die 1 kept. -/
theorem reroll_frame_witness :
    rollDiceVals turnKeepOne.diceKept turnKeepOne.diceValues rngConst 1 =
      turnKeepOne.diceValues 1 ∧
    (animateCupShake rngConst turnKeepOne).diceValues 1 = turnKeepOne.diceValues 1 :=
  ⟨(reroll_frame turnKeepOne.diceKept turnKeepOne.diceValues rngConst turnKeepOne).1 1 rfl,
   (reroll_frame turnKeepOne.diceKept turnKeepOne.diceValues rngConst turnKeepOne).2.2.2 1 rfl⟩

/-- C5: a reroll request is a no-op when rolls-left is 0 or an animation is in
progress; an accepted reroll decrements rolls-left by exactly 1, and
rolls-left stays at most 2. -/
theorem reroll_guard (rng : Fin 5 → Fin 6) (s : TurnSt) :
    ((s.rollsLeft = 0 ∨ s.isAnimating = true) → keydownRoll rng s = s) ∧
    (s.gameMode = GameMode.rolling → s.isAnimating = false → 0 < s.rollsLeft →
       (keydownRoll rng s).rollsLeft + 1 = s.rollsLeft) ∧
    (s.rollsLeft ≤ 2 → (keydownRoll rng s).rollsLeft ≤ 2) := by
  refine ⟨?_, ?_, ?_⟩
  · rintro (h0 | ha)
    · unfold keydownRoll
      by_cases hg : s.gameMode = GameMode.rolling ∧ s.isAnimating = false
      · simp [hg, h0]
      · simp [hg]
    · unfold keydownRoll
      simp [ha]
  · intro hm ha hr
    unfold keydownRoll animateCupShake
    simp only [hm, ha, hr, and_self, if_true, Bool.false_eq_true, if_false, if_pos]
    omega
  · intro h2
    unfold keydownRoll animateCupShake
    by_cases hg : s.gameMode = GameMode.rolling ∧ s.isAnimating = false
    · by_cases hr : 0 < s.rollsLeft
      · have ha : s.isAnimating = false := hg.2
        simp only [hg, and_self, if_true, hr, if_pos, ha, Bool.false_eq_true, if_false]
        omega
      · simp [hg, hr, h2]
    · simp [hg, h2]

/-- Witness for `reroll_guard` at concrete states. -/
theorem reroll_guard_witness :
    keydownRoll rngConst turnNoRolls = turnNoRolls ∧
    keydownRoll rngConst turnAnimating = turnAnimating ∧
    (keydownRoll rngConst turnMid).rollsLeft + 1 = turnMid.rollsLeft ∧
    (keydownRoll rngConst turnMid).rollsLeft ≤ 2 :=
  ⟨(reroll_guard rngConst turnNoRolls).1 (Or.inl rfl),
   (reroll_guard rngConst turnAnimating).1 (Or.inr rfl),
   (reroll_guard rngConst turnMid).2.1 rfl rfl (by decide),
   (reroll_guard rngConst turnMid).2.2 (by decide)⟩

/-- C8: at the start of every player's turn all five kept flags are cleared,
rolls-left is set to 2, the mode is rolling, and the automatic initial roll
assigns all five dice from the oracle (values in 1..6) without decrementing
rolls-left. -/
theorem beginPlayerTurn_fresh (rng : Fin 5 → Fin 6) (s : TurnSt) :
    (∀ i, (beginPlayerTurn rng s).diceKept i = false) ∧
    (beginPlayerTurn rng s).rollsLeft = 2 ∧
    (beginPlayerTurn rng s).gameMode = GameMode.rolling ∧
    (∀ i, (beginPlayerTurn rng s).diceValues i = (rng i).1 + 1 ∧
       1 ≤ (beginPlayerTurn rng s).diceValues i ∧
       (beginPlayerTurn rng s).diceValues i ≤ 6) := by
  refine ⟨fun i => rfl, rfl, rfl, fun i => ?_⟩
  have hv : (beginPlayerTurn rng s).diceValues i = (rng i).1 + 1 := by
    show rollDiceVals (fun _ => false) (fun _ => 0) rng i = (rng i).1 + 1
    rw [rollDiceVals_apply]
    simp
  have hlt := (rng i).isLt
  refine ⟨hv, ?_, ?_⟩ <;> rw [hv] <;> omega

/-! ## Final score -/

theorem sumSetEntries_eq (sb : Scoreboard) (keys : List Category) :
    sumSetEntries sb keys = (keys.map (fun k => (sb k).getD 0)).sum := by
  unfold sumSetEntries
  have aux : ∀ (l : List Category) (acc : Nat),
      l.foldl (fun acc k => match sb k with | some v => acc + v | none => acc) acc
        = acc + (l.map (fun k => (sb k).getD 0)).sum := by
    intro l
    induction l with
    | nil =>
      intro acc
      simp
    | cons k t ih =>
      intro acc
      simp only [List.foldl_cons, List.map_cons, List.sum_cons]
      cases hk : sb k with
      | none =>
        rw [ih]
        simp
      | some v =>
        rw [ih]
        simp only [Option.getD_some]
        ring
  simpa using aux keys 0

/-- C6: for every scoreboard, `calculateFinalScore` returns the upper
subtotal of the set upper entries, a bonus of exactly 35 iff that subtotal
is at least 63 (else 0), the lower subtotal of the set lower entries, and
their grand total; unset categories contribute 0. -/
theorem calculateFinalScore_spec (sb : Scoreboard) :
    calculateFinalScore sb =
      (upperSubtotal sb,
       if 63 ≤ upperSubtotal sb then 35 else 0,
       lowerSubtotal sb,
       upperSubtotal sb + (if 63 ≤ upperSubtotal sb then 35 else 0) + lowerSubtotal sb) := by
  unfold calculateFinalScore upperSubtotal lowerSubtotal
  rw [sumSetEntries_eq sb upperKeys, sumSetEntries_eq sb lowerKeys]

/-! ## Scoreboard commit -/

/-- C1 counterexample: committing to the already-set category `ones` does not
keep the previous value: `applyScoreToCategory` overwrites the stored 3 with
the newly computed score. -/
theorem recommit_overwrites_counterexample :
    applyScoreToCategory Category.ones [1,2,3,4,5] sbOnesSet false Category.ones ≠
      sbOnesSet Category.ones := by
  decide

/-- C1 (amended): the commit operation itself overwrites unconditionally,
but the selection overlay offers commit actions only for unset categories,
so every commit reachable through the offered actions leaves each
already-set category unchanged. -/
theorem applyScore_offered_preserves_set (sb : Scoreboard) (cat : Category)
    (vals : List Nat) (forceZero : Bool) (c : Category)
    (hoff : categoryOffered sb cat) (hset : sb c ≠ none) :
    applyScoreToCategory cat vals sb forceZero c = sb c := by
  have hne : c ≠ cat := by
    intro h
    rw [h] at hset
    exact hset hoff
  unfold applyScoreToCategory
  by_cases hz : forceZero = true
  · simp [hz, hne]
  · simp only [Bool.not_eq_true] at hz
    simp [hz, hne]

/-- Witness for `applyScore_offered_preserves_set` at a concrete scoreboard. -/
theorem applyScore_offered_preserves_set_witness :
    applyScoreToCategory Category.twos [1,1,1,1,1] sbOnesSet true Category.ones =
      sbOnesSet Category.ones :=
  applyScore_offered_preserves_set sbOnesSet Category.twos [1,1,1,1,1] true Category.ones
    rfl (by decide)

/-! ## Round and player advancement -/

/-- C2: for every player count in 1..9, starting from game start the mode
reaches gameOver exactly after numPlayers times 13 advances and never
earlier. -/
theorem gameOver_after_exactly_all_turns :
    ∀ N : Nat, N < 10 → 1 ≤ N → ∀ k : Nat, k < N * 13 + 1 →
      (((nextPlayerOrRound N)^[k] gameStart).gameMode = GameMode.gameOver ↔
        k = N * 13) := by
  decide!

/-- Witness for `gameOver_after_exactly_all_turns` with two players: gameOver
exactly at advance 26, not at 25. -/
theorem gameOver_after_exactly_all_turns_witness :
    (((nextPlayerOrRound 2)^[26] gameStart).gameMode = GameMode.gameOver ↔
      26 = 2 * 13) ∧
    (((nextPlayerOrRound 2)^[25] gameStart).gameMode = GameMode.gameOver ↔
      25 = 2 * 13) :=
  ⟨gameOver_after_exactly_all_turns 2 (by decide) (by decide) 26 (by decide),
   gameOver_after_exactly_all_turns 2 (by decide) (by decide) 25 (by decide)⟩
